import Mathlib

/-!
Shallow embedding of the ndsemu core sources (hardware divisor unit,
hwio register-binding framework, ARM CPU exception/line handling,
touchscreen sample computation) and verification of the specified
properties against it.

Machine integers are modelled as `Nat` (unsigned registers) and `Int`
(signed views), with wrap-around written explicitly as `% 2^w` at the
points where the Go code converts or overflows.
-/

namespace Ndsemu

/-- Go `uint32(x)` applied to a wider unsigned value: the low 32 bits. -/
def u32 (v : Nat) : Nat := v % 2^32

/-- Go `int32(x)` applied to an unsigned value: the low 32 bits read as a
two's-complement signed number. -/
def i32 (v : Nat) : Int :=
  if v % 2^32 < 2^31 then ((v % 2^32 : Nat) : Int) else ((v % 2^32 : Nat) : Int) - 2^32

/-- Go `int64(x)` applied to an unsigned value: the low 64 bits read as a
two's-complement signed number. -/
def i64 (v : Nat) : Int :=
  if v % 2^64 < 2^63 then ((v % 2^64 : Nat) : Int) else ((v % 2^64 : Nat) : Int) - 2^64

/-- Go `uint64(x)` applied to a signed value: the two's-complement bit
pattern of the low 64 bits, as a natural number. -/
def u64ofInt (x : Int) : Nat := (Int.emod x (2^64)).toNat

/-- Go `int32(x)` applied to a signed 64-bit value: sign-extension of the
low 32 bits of its two's-complement representation. -/
def i32ofInt (x : Int) : Int := i32 (u64ofInt x)

/-- Go `^x` on a `uint64`: bitwise complement within 64 bits. -/
def unot64 (v : Nat) : Nat := (2^64 - 1) ^^^ (v % 2^64)

/-! ## Divisor unit (src/divisor.go)

`HwDivisor` carries the five 16/64-bit registers.  Only the register
values matter for the divisor's behaviour; the hwio callback wiring is
modelled separately in the hwio section below. -/

structure HwDivisor where
  DivCnt : Nat
  Numer : Nat
  Denom : Nat
  Res : Nat
  Mod : Nat
deriving DecidableEq, Repr

/-- `(*HwDivisor).calc` from src/divisor.go (`calc` is a Lean keyword, so
the Lean name is `calcDiv`).  Recomputes `Res` and `Mod` from the mode
(low 2 bits of `DivCnt`), `Numer` and `Denom`, reproducing the Go
arithmetic exactly: `Int.tdiv`/`Int.tmod` are Go's truncating signed
division and remainder. -/
def calcDiv (div : HwDivisor) : HwDivisor :=
  let mode := div.DivCnt &&& 3
  if mode = 0 then
    -- 32-bit divisions
    if i32 div.Denom = 0 then
      { div with
        Mod := div.Numer
        Res := if 0 ≤ i32 div.Numer then 0xFFFFFFFFF else unot64 0xFFFFFFFFF }
    else if i32 div.Denom = -1 ∧ u32 div.Numer = 0x80000000 then
      -- upper 64-bits are 0 (no sign-extension)
      { div with Mod := 0, Res := u32 div.Numer }
    else
      let res := Int.tdiv (i32 div.Numer) (i32 div.Denom)
      let m := Int.tmod (i32 div.Numer) (i32 div.Denom)
      -- results are sign-extended
      { div with Res := u64ofInt res, Mod := u64ofInt m }
  else
    -- 64-bit / 32-bit division: truncate (and sign-extend) the denominator
    let denom : Int := if mode ≠ 2 then i32 div.Denom else i64 div.Denom
    if i32ofInt denom = 0 then
      { div with
        Mod := div.Numer
        Res := if 0 < div.Numer then 0xFFFFFFFFFFFFFFFF else 1 }
    else if i32ofInt denom = -1 ∧ div.Numer = 0x8000000000000000 then
      { div with Mod := 0, Res := div.Numer }
    else
      -- Normal division
      { div with
        Res := u64ofInt (Int.tdiv (i64 div.Numer) denom)
        Mod := u64ofInt (Int.tmod (i64 div.Numer) denom) }

/-- `(*HwDivisor).WriteIN`: write callback of `Numer` and `Denom`. -/
def WriteIN (div : HwDivisor) (_ _ : Nat) : HwDivisor := calcDiv div

/-- `(*HwDivisor).WriteDIVCNT`: write callback of `DivCnt`. -/
def WriteDIVCNT (div : HwDivisor) (_ _ : Nat) : HwDivisor := calcDiv div

/-- `(*HwDivisor).ReadDIVCNT`: read callback of `DivCnt`; sets the
division-by-zero flag (bit 14) whenever the full 64-bit denominator is
zero. -/
def ReadDIVCNT (div : HwDivisor) (val : Nat) : Nat :=
  if div.Denom = 0 then val ||| (1 <<< 14) else val

/-- The result register value that claim C1 predicts for a
division-by-zero in modes 1–3: all-ones when the *signed* 64-bit
numerator is positive, else 1. -/
def c1ClaimRes (numer : Nat) : Nat := if 0 < i64 numer then 2^64 - 1 else 1

/-- `Res`/`Mod` of `calcDiv` as functions of the three input registers
only (used to prove the frame/idempotence property). -/
def calcResFn (c n d : Nat) : Nat := (calcDiv ⟨c, n, d, 0, 0⟩).Res

/-- `Mod` companion of `calcResFn`. -/
def calcModFn (c n d : Nat) : Nat := (calcDiv ⟨c, n, d, 0, 0⟩).Mod

lemma calcDiv_eq (div : HwDivisor) :
    calcDiv div =
      { div with
        Res := calcResFn div.DivCnt div.Numer div.Denom
        Mod := calcModFn div.DivCnt div.Numer div.Denom } := by
  obtain ⟨c, n, d, r, m⟩ := div
  simp only [calcDiv, calcResFn, calcModFn]
  split_ifs <;> rfl

/-- C2: in mode 0 (low 2 bits of `DivCnt` zero), recomputation performs
the 32-bit division: denominator zero gives `Mod = Numer` and
`Res = 0xFFFFFFFFF` (numerator ≥ 0) or its 64-bit complement; the
overflow pair `(-1, 0x80000000)` gives `Mod = 0` and the zero-extended
32-bit numerator; otherwise the truncating signed 32-bit quotient and
remainder, sign-extended to 64 bits. -/
theorem divisor_mode0 (div : HwDivisor) (hc : div.DivCnt &&& 3 = 0) :
    (i32 div.Denom = 0 →
      (calcDiv div).Mod = div.Numer ∧
      (calcDiv div).Res =
        (if 0 ≤ i32 div.Numer then 0xFFFFFFFFF else 2^64 - 1 - 0xFFFFFFFFF)) ∧
    (i32 div.Denom = -1 → u32 div.Numer = 0x80000000 →
      (calcDiv div).Mod = 0 ∧ (calcDiv div).Res = div.Numer % 2^32) ∧
    (i32 div.Denom ≠ 0 → ¬(i32 div.Denom = -1 ∧ u32 div.Numer = 0x80000000) →
      (calcDiv div).Res = u64ofInt (Int.tdiv (i32 div.Numer) (i32 div.Denom)) ∧
      (calcDiv div).Mod = u64ofInt (Int.tmod (i32 div.Numer) (i32 div.Denom))) := by
  have hcompl : unot64 0xFFFFFFFFF = 2^64 - 1 - 0xFFFFFFFFF := by decide
  refine ⟨fun h0 => ?_, fun hm1 hn => ?_, fun h0 hov => ?_⟩
  · simp [calcDiv, hc, h0, hcompl]
  · have h0 : ¬(i32 div.Denom = 0) := by rw [hm1]; decide
    have hn2 : div.Numer % 2^32 = 0x80000000 := hn
    simp [calcDiv, hc, h0, hm1, hn, hn2]
    omega
  · simp [calcDiv, hc, h0, hov]

/-- C2 witness at the spec's own example `10 / 3` in mode 0. -/
theorem divisor_mode0_witness :
    ((0 : Nat) &&& 3 = 0) ∧
    (calcDiv ⟨0, 10, 3, 0, 0⟩).Res = 3 ∧ (calcDiv ⟨0, 10, 3, 0, 0⟩).Mod = 1 := by
  refine ⟨by decide, ?_, ?_⟩
  · have h := (divisor_mode0 ⟨0, 10, 3, 0, 0⟩ (by decide)).2.2 (by decide) (by decide)
    rw [h.1]; decide
  · have h := (divisor_mode0 ⟨0, 10, 3, 0, 0⟩ (by decide)).2.2 (by decide) (by decide)
    rw [h.2]; decide

/-- C1 counterexample: in mode 1 with denominator 0 and numerator
`0x8000000000000000` (the most negative signed 64-bit value, so its
*signed* value is not greater than 0), the code sets `Res` to all-ones,
while the claim — reading the comparison as signed — predicts 1. -/
theorem divisor_div0_signed_counterexample :
    (calcDiv ⟨1, 0x8000000000000000, 0, 0, 0⟩).Res = 0xFFFFFFFFFFFFFFFF ∧
    c1ClaimRes 0x8000000000000000 = 1 ∧
    (0xFFFFFFFFFFFFFFFF : Nat) ≠ 1 := by
  refine ⟨?_, by decide, by decide⟩
  decide

/-- C1 (amended): in modes 1–3, when the effective denominator (full
64-bit register in mode 2, sign-extended low 32 bits otherwise) is zero,
recomputation sets `Mod` to the numerator and `Res` to all-ones if the
numerator register's *unsigned* 64-bit value is greater than 0, else
to 1. -/
theorem divisor_div0_mode123 (div : HwDivisor)
    (hmode : div.DivCnt &&& 3 ≠ 0)
    (hzero : (if div.DivCnt &&& 3 = 2 then i64 div.Denom else i32 div.Denom) = 0) :
    (calcDiv div).Mod = div.Numer ∧
    (calcDiv div).Res = (if 0 < div.Numer then 2^64 - 1 else 1) := by
  have hden : (if div.DivCnt &&& 3 ≠ 2 then i32 div.Denom else i64 div.Denom) = 0 := by
    rw [ite_not]; exact hzero
  have hz : i32ofInt 0 = 0 := by decide
  simp only [calcDiv, if_neg hmode, hden, hz, if_pos]
  constructor
  · simp
  · norm_num

/-- C1 amended-claim witness: mode 1, denominator 0, numerator 5. -/
theorem divisor_div0_mode123_witness :
    ((1 : Nat) &&& 3 ≠ 0) ∧
    ((if (1 : Nat) &&& 3 = 2 then i64 0 else i32 0) = 0) ∧
    (calcDiv ⟨1, 5, 0, 0, 0⟩).Mod = 5 ∧
    (calcDiv ⟨1, 5, 0, 0, 0⟩).Res = 2^64 - 1 := by
  refine ⟨by decide, by decide, ?_⟩
  have h := divisor_div0_mode123 ⟨1, 5, 0, 0, 0⟩ (by decide) (by decide)
  simpa using h

/-- C6: a bus read of the control register reports the division-by-zero
flag (bit 14) exactly when the full 64-bit denominator register is zero
(whatever the mode bits say), and returns the incoming value unmodified
when the denominator is nonzero. -/
theorem readdivcnt_div0_flag (div : HwDivisor) (val : Nat) :
    (div.Denom = 0 → Nat.testBit (ReadDIVCNT div val) 14 = true) ∧
    (div.Denom ≠ 0 → ReadDIVCNT div val = val) := by
  constructor
  · intro h
    simp only [ReadDIVCNT, if_pos h, Nat.testBit_or]
    have hb : Nat.testBit (1 <<< 14) 14 = true := by decide
    rw [hb, Bool.or_true]
  · intro h
    simp [ReadDIVCNT, h]

/-- C6 witness: flag set with zero denominator even in 32-bit mode with a
nonzero low word impossible (denominator fully zero), and a nonzero
denominator read passes through. -/
theorem readdivcnt_div0_flag_witness :
    Nat.testBit (ReadDIVCNT ⟨0, 0, 0, 0, 0⟩ 0) 14 = true ∧
    ReadDIVCNT ⟨0, 0, 0x100000000, 0, 0⟩ 5 = 5 := by
  refine ⟨(readdivcnt_div0_flag ⟨0, 0, 0, 0, 0⟩ 0).1 rfl, ?_⟩
  exact (readdivcnt_div0_flag ⟨0, 0, 0x100000000, 0, 0⟩ 5).2 (by decide)

/-- C10: recomputation only mutates `Res` and `Mod`: `DivCnt`, `Numer`
and `Denom` are unchanged, both write callbacks just invoke it, and
recomputing twice with unchanged inputs yields the same state. -/
theorem calcdiv_frame_idempotent (div : HwDivisor) :
    (calcDiv div).DivCnt = div.DivCnt ∧
    (calcDiv div).Numer = div.Numer ∧
    (calcDiv div).Denom = div.Denom ∧
    (∀ a b, WriteIN div a b = calcDiv div) ∧
    (∀ a b, WriteDIVCNT div a b = calcDiv div) ∧
    calcDiv (calcDiv div) = calcDiv div := by
  refine ⟨?_, ?_, ?_, fun a b => rfl, fun a b => rfl, ?_⟩
  · rw [calcDiv_eq]
  · rw [calcDiv_eq]
  · rw [calcDiv_eq]
  · rw [calcDiv_eq div, calcDiv_eq]

/-! ## hwio register-binding framework (src/unnamed/part_000, package hwio)

Strings are handled at the `List Char` level so that everything reduces
in the kernel.  `hwiotag.Get` walks the tag with `strings.Index(tag, ",")`,
which inspects the comma-separated chunks in order; `splitCommas`
produces exactly those chunks. -/

/-- The comma-separated chunks of a tag string (Go code iterates with
`strings.Index(tag, ",")` and slicing, equivalent to this split). -/
def splitCommas : List Char → List (List Char)
  | [] => [[]]
  | c :: rest =>
    if c = ',' then [] :: splitCommas rest
    else
      match splitCommas rest with
      | ch :: chs => (c :: ch) :: chs
      | [] => [[c]]

/-- The per-chunk test of `hwiotag.Get`: a chunk equal to `opt` yields
`"true"`; a chunk of the form `opt=value` (strictly longer than `opt`,
starting with `opt`, then `'='`) yields the value; otherwise continue.
An absent option yields the empty string. -/
def getChunks (opt : List Char) : List (List Char) → List Char
  | [] => []
  | c :: rest =>
    if c = opt then "true".data
    else if (opt ++ ['=']).isPrefixOf c then c.drop (opt.length + 1)
    else getChunks opt rest

/-- `hwiotag.Get`: look an option up in the comma-separated tag. -/
def hwioGet (tag opt : String) : String :=
  String.mk (getChunks opt.data (splitCommas tag.data))

/-- Digit classification of Go's `strconv.ParseUint` accumulation loop:
`'0'`–`'9'`, then any letter as `lower(c) - 'a' + 10` (values ≥ base are
rejected by the caller). -/
def digitVal (c : Char) : Option Nat :=
  if '0' ≤ c ∧ c ≤ '9' then some (c.toNat - '0'.toNat)
  else if 'a' ≤ c ∧ c ≤ 'z' then some (c.toNat - 'a'.toNat + 10)
  else if 'A' ≤ c ∧ c ≤ 'Z' then some (c.toNat - 'A'.toNat + 10)
  else none

/-- Scan state loop of Go's `strconv.underscoreOK`: `saw` is `'^'` at the
beginning, `'0'` after a digit (or base prefix), `'_'` after an
underscore, `'!'` otherwise; an underscore must follow and be followed
by a digit. -/
def undLoop (hex : Bool) (saw : Char) : List Char → Bool
  | [] => saw ≠ '_'
  | c :: rest =>
    if ('0' ≤ c ∧ c ≤ '9') ∨ (hex ∧ (('a' ≤ c ∧ c ≤ 'f') ∨ ('A' ≤ c ∧ c ≤ 'F'))) then
      undLoop hex '0' rest
    else if c = '_' then
      if saw = '0' then undLoop hex '_' rest else false
    else if saw = '_' then false
    else undLoop hex '!' rest

/-- Go `strconv.underscoreOK`: underscores may appear only between
digits or between a base prefix and a digit. -/
def underscoreOK (s : List Char) : Bool :=
  let s1 := match s with
    | c :: rest => if c = '-' ∨ c = '+' then rest else c :: rest
    | [] => []
  match s1 with
  | c0 :: c1 :: rest =>
    if c0 = '0' ∧ (c1 = 'b' ∨ c1 = 'B' ∨ c1 = 'o' ∨ c1 = 'O' ∨ c1 = 'x' ∨ c1 = 'X') then
      undLoop (c1 = 'x' ∨ c1 = 'X') '0' rest
    else undLoop false '^' s1
  | _ => undLoop false '^' s1

/-- The digit-accumulation loop of `strconv.ParseUint` (base-0 form, so
validated underscores are skipped). -/
def digitsLoop (base : Nat) : List Char → Nat → Option Nat
  | [], acc => some acc
  | c :: rest, acc =>
    if c = '_' then digitsLoop base rest acc
    else
      match digitVal c with
      | some d => if d < base then digitsLoop base rest (acc * base + d) else none
      | none => none

/-- Base detection and digit scan of `strconv.ParseUint(s, 0, bitSize)`:
`0x`/`0b`/`0o` prefixes (only when at least one character follows),
otherwise a leading `0` selects octal, otherwise decimal. -/
def parseUintCore (s : String) : Option Nat :=
  match s.data with
  | [] => none
  | c0 :: rest0 =>
    if underscoreOK (c0 :: rest0) = false then none
    else
      let bd : Nat × List Char :=
        if c0 = '0' then
          match rest0 with
          | c1 :: c2 :: rest2 =>
            if c1 = 'b' ∨ c1 = 'B' then (2, c2 :: rest2)
            else if c1 = 'o' ∨ c1 = 'O' then (8, c2 :: rest2)
            else if c1 = 'x' ∨ c1 = 'X' then (16, c2 :: rest2)
            else (8, rest0)
          | _ => (8, rest0)
        else (10, c0 :: rest0)
      digitsLoop bd.1 bd.2 0

/-- Go `strconv.ParseUint(s, 0, bitSize)` as used by `InitRegs`:
`none` models a non-nil error (syntax or range). -/
def parseUint (s : String) (bitSize : Nat) : Option Nat :=
  match parseUintCore s with
  | some n => if n < 2^bitSize then some n else none
  | none => none

/-- Go `strings.ToUpper` restricted to ASCII (struct field names are
ASCII identifiers). -/
def toUpperGo (s : String) : String :=
  String.mk (s.data.map fun c =>
    if 'a' ≤ c ∧ c ≤ 'z' then Char.ofNat (c.toNat - 32) else c)

/-- The supported hwio register field types. -/
inductive RegType
  | Reg16
  | Reg32
  | Reg64
deriving DecidableEq, Repr

/-- Declared bit width of a register type (`nbits` in `InitRegs`). -/
def nbitsOf : RegType → Nat
  | .Reg16 => 16
  | .Reg32 => 32
  | .Reg64 => 64

/-- State of one hwio register after initialization: live value,
read-only mask, and the names of the bound read/write callback methods
(`none` when no callback is bound). -/
structure RegState where
  Value : Nat := 0
  RoMask : Nat := 0
  ReadCb : Option String := none
  WriteCb : Option String := none
deriving DecidableEq, Repr

/-- Callback-name resolution of `InitRegs`: a bare flag (`Get` returned
`"true"`) resolves to the uppercased field name behind the given method
name head; an explicit value is used as-is. -/
def resolveCbName (head : String) (fieldName : String) (v : String) : String :=
  if v = "true" then head ++ toUpperGo fieldName else v

/-- The `rwmask` block of the `InitRegs` loop body: parse the option (if
present) and store the bitwise complement of the parsed mask as the
read-only mask.  `reflect.Value.SetUint` truncates the 64-bit complement
to the field's width, hence the `% 2^nbits`. -/
def rwmaskStep (tag : String) (nbits : Nat) (r : RegState) : Except String RegState :=
  if hwioGet tag "rwmask" ≠ "" then
    match parseUint (hwioGet tag "rwmask") nbits with
    | none => Except.error ("invalid rwmask: " ++ hwioGet tag "rwmask")
    | some mask => Except.ok { r with RoMask := ((2^64 - 1) ^^^ mask) % 2^nbits }
  else Except.ok r

/-- The `reset` block of the `InitRegs` loop body: parse the option (if
present) and set the live value directly, bypassing the mask. -/
def resetStep (tag : String) (nbits : Nat) (r : RegState) : Except String RegState :=
  if hwioGet tag "reset" ≠ "" then
    match parseUint (hwioGet tag "reset") nbits with
    | none => Except.error ("invalid reset: " ++ hwioGet tag "reset")
    | some rst => Except.ok { r with Value := rst % 2^nbits }
  else Except.ok r

/-- The `rcb` block of the `InitRegs` loop body: resolve the read
callback name (bare flag → `Read` + uppercased field name) and bind it,
failing when the instance has no method of that name. -/
def rcbStep (methods : List String) (fieldName tag : String) (r : RegState) :
    Except String RegState :=
  if hwioGet tag "rcb" ≠ "" then
    if methods.contains (resolveCbName "Read" fieldName (hwioGet tag "rcb")) then
      Except.ok { r with ReadCb := some (resolveCbName "Read" fieldName (hwioGet tag "rcb")) }
    else Except.error ("cannot find method: " ++ resolveCbName "Read" fieldName (hwioGet tag "rcb"))
  else Except.ok r

/-- The `wcb` block of the `InitRegs` loop body, symmetric to `rcbStep`
with the `Write` name head. -/
def wcbStep (methods : List String) (fieldName tag : String) (r : RegState) :
    Except String RegState :=
  if hwioGet tag "wcb" ≠ "" then
    if methods.contains (resolveCbName "Write" fieldName (hwioGet tag "wcb")) then
      Except.ok { r with WriteCb := some (resolveCbName "Write" fieldName (hwioGet tag "wcb")) }
    else Except.error ("cannot find method: " ++ resolveCbName "Write" fieldName (hwioGet tag "wcb"))
  else Except.ok r

/-- Sequencing of the `InitRegs` loop body: a failed block aborts the
initialization with its error, a successful block passes the updated
register state on. -/
def bindE (x : Except String RegState) (f : RegState → Except String RegState) :
    Except String RegState :=
  match x with
  | Except.error e => Except.error e
  | Except.ok r => f r

lemma bindE_ok (r : RegState) (f : RegState → Except String RegState) :
    bindE (Except.ok r) f = f r := rfl

lemma bindE_error (e : String) (f : RegState → Except String RegState) :
    bindE (Except.error e) f = Except.error e := rfl

/-- The body of the `InitRegs` loop for one tagged field, given the set
of method names defined on the peripheral instance.  Mirrors the Go
order: `rwmask`, then `reset`, then `rcb`, then `wcb`; the first failure
aborts with the Go error text. -/
def initField (methods : List String) (fieldName : String) (tag : String)
    (rt : RegType) (r : RegState) : Except String RegState :=
  bindE (rwmaskStep tag (nbitsOf rt) r) fun r =>
    bindE (resetStep tag (nbitsOf rt) r) fun r =>
      bindE (rcbStep methods fieldName tag r) fun r =>
        wcbStep methods fieldName tag r

lemma parseUint_lt {s : String} {k m : Nat} (h : parseUint s k = some m) : m < 2^k := by
  unfold parseUint at h
  split at h
  · split at h
    · cases h; assumption
    · exact absurd h (by simp)
  · exact absurd h (by simp)

lemma parseUint_ne_empty {s : String} {k m : Nat} (h : parseUint s k = some m) : s ≠ "" := by
  intro he
  subst he
  simp [parseUint, parseUintCore] at h

lemma unot_mod {m : Nat} (k : Nat) (hm : m < 2^k) (hk : k ≤ 64) :
    ((2^64 - 1) ^^^ m) % 2^k = (2^k - 1) ^^^ m := by
  apply Nat.eq_of_testBit_eq
  intro i
  rw [Nat.testBit_mod_two_pow, Nat.testBit_xor, Nat.testBit_xor,
    Nat.testBit_two_pow_sub_one, Nat.testBit_two_pow_sub_one]
  by_cases hik : i < k
  · have h64 : i < 64 := lt_of_lt_of_le hik hk
    simp [hik, h64]
  · have hbit : Nat.testBit m i = false :=
      Nat.testBit_lt_two_pow
        (lt_of_lt_of_le hm (Nat.pow_le_pow_right (by norm_num) (le_of_not_lt hik)))
    simp [hik, hbit]

lemma nbitsOf_le (rt : RegType) : nbitsOf rt ≤ 64 := by cases rt <;> decide

lemma rwmaskStep_ok {tag : String} {nbits : Nat} {r r1 : RegState}
    (h : rwmaskStep tag nbits r = Except.ok r1) :
    r1.Value = r.Value ∧ r1.ReadCb = r.ReadCb ∧ r1.WriteCb = r.WriteCb := by
  unfold rwmaskStep at h
  split at h
  · split at h
    · exact absurd h (by simp)
    · cases h; exact ⟨rfl, rfl, rfl⟩
  · cases h; exact ⟨rfl, rfl, rfl⟩

lemma resetStep_ok {tag : String} {nbits : Nat} {r r1 : RegState}
    (h : resetStep tag nbits r = Except.ok r1) :
    r1.RoMask = r.RoMask ∧ r1.ReadCb = r.ReadCb ∧ r1.WriteCb = r.WriteCb := by
  unfold resetStep at h
  split at h
  · split at h
    · exact absurd h (by simp)
    · cases h; exact ⟨rfl, rfl, rfl⟩
  · cases h; exact ⟨rfl, rfl, rfl⟩

lemma rcbStep_ok {methods : List String} {fieldName tag : String} {r r1 : RegState}
    (h : rcbStep methods fieldName tag r = Except.ok r1) :
    r1.Value = r.Value ∧ r1.RoMask = r.RoMask ∧ r1.WriteCb = r.WriteCb := by
  unfold rcbStep at h
  split at h
  · split at h
    · cases h; exact ⟨rfl, rfl, rfl⟩
    · exact absurd h (by simp)
  · cases h; exact ⟨rfl, rfl, rfl⟩

lemma wcbStep_ok {methods : List String} {fieldName tag : String} {r r1 : RegState}
    (h : wcbStep methods fieldName tag r = Except.ok r1) :
    r1.Value = r.Value ∧ r1.RoMask = r.RoMask ∧ r1.ReadCb = r.ReadCb := by
  unfold wcbStep at h
  split at h
  · split at h
    · cases h; exact ⟨rfl, rfl, rfl⟩
    · exact absurd h (by simp)
  · cases h; exact ⟨rfl, rfl, rfl⟩

/-- C7: for every tagged field of width 16/32/64 whose metadata carries
`rwmask` and `reset` values that parse and fit the width, a successful
initialization stores exactly the width-wide bitwise complement of the
`rwmask` value as the read-only mask and exactly the `reset` value as
the live register value (no masking applied). -/
theorem initregs_rwmask_reset (methods : List String) (fieldName tag : String)
    (rt : RegType) (r r' : RegState) (smask srst : String) (m v : Nat)
    (hs1 : hwioGet tag "rwmask" = smask) (hm : parseUint smask (nbitsOf rt) = some m)
    (hs2 : hwioGet tag "reset" = srst) (hv : parseUint srst (nbitsOf rt) = some v)
    (hok : initField methods fieldName tag rt r = Except.ok r') :
    r'.RoMask = (2^(nbitsOf rt) - 1) ^^^ m ∧ r'.Value = v := by
  have hne1 : smask ≠ "" := parseUint_ne_empty hm
  have hne2 : srst ≠ "" := parseUint_ne_empty hv
  unfold initField at hok
  have h1 : rwmaskStep tag (nbitsOf rt) r =
      Except.ok { r with RoMask := ((2^64 - 1) ^^^ m) % 2^(nbitsOf rt) } := by
    unfold rwmaskStep
    rw [hs1, if_pos hne1, hm]
  simp only [h1, bindE_ok] at hok
  have h2 : resetStep tag (nbitsOf rt) { r with RoMask := ((2^64 - 1) ^^^ m) % 2^(nbitsOf rt) } =
      Except.ok { r with RoMask := ((2^64 - 1) ^^^ m) % 2^(nbitsOf rt),
                         Value := v % 2^(nbitsOf rt) } := by
    unfold resetStep
    rw [hs2, if_pos hne2, hv]
  simp only [h2, bindE_ok] at hok
  cases h3 : rcbStep methods fieldName tag
      { r with RoMask := ((2^64 - 1) ^^^ m) % 2^(nbitsOf rt), Value := v % 2^(nbitsOf rt) } with
  | error e => rw [h3, bindE_error] at hok; exact absurd hok (by simp)
  | ok r3 =>
    rw [h3, bindE_ok] at hok
    obtain ⟨hv3, hro3, -⟩ := rcbStep_ok h3
    obtain ⟨hv4, hro4, -⟩ := wcbStep_ok hok
    constructor
    · rw [hro4, hro3]
      exact unot_mod (nbitsOf rt) (parseUint_lt hm) (nbitsOf_le rt)
    · rw [hv4, hv3]
      exact Nat.mod_eq_of_lt (parseUint_lt hv)

/-- C7 witness at the divisor's own `DivCnt` metadata extended with a
reset value: `rwmask=0x3` on a 16-bit register gives read-only mask
`0xFFFC` and `reset=0x8000` is stored exactly. -/
theorem initregs_rwmask_reset_witness :
    hwioGet "rwmask=0x3,reset=0x8000" "rwmask" = "0x3" ∧
    parseUint "0x3" 16 = some 3 ∧
    hwioGet "rwmask=0x3,reset=0x8000" "reset" = "0x8000" ∧
    parseUint "0x8000" 16 = some 0x8000 ∧
    initField [] "DivCnt" "rwmask=0x3,reset=0x8000" RegType.Reg16 {} =
      Except.ok { Value := 0x8000, RoMask := 0xFFFC } ∧
    (0xFFFC : Nat) = (2^16 - 1) ^^^ 3 := by
  refine ⟨by decide, by decide, by decide, by decide, rfl, ?_⟩
  have h := initregs_rwmask_reset [] "DivCnt" "rwmask=0x3,reset=0x8000" RegType.Reg16
    {} { Value := 0x8000, RoMask := 0xFFFC } "0x3" "0x8000" 3 0x8000
    (by decide) (by decide) (by decide) (by decide) rfl
  exact h.1

/-- C8: a bare `rcb`/`wcb` flag resolves to the method named
`Read`/`Write` followed by the uppercased field name: when no method of
the resolved name exists, initialization fails with the `cannot find
method` error naming it; when it exists and initialization succeeds, the
callback bound is exactly that method. -/
theorem initregs_callback_resolution (methods : List String) (fieldName tag : String)
    (rt : RegType) (r : RegState)
    (hrw : hwioGet tag "rwmask" ≠ "" →
      (parseUint (hwioGet tag "rwmask") (nbitsOf rt)).isSome = true)
    (hrs : hwioGet tag "reset" ≠ "" →
      (parseUint (hwioGet tag "reset") (nbitsOf rt)).isSome = true) :
    (hwioGet tag "rcb" = "true" →
      methods.contains ("Read" ++ toUpperGo fieldName) = false →
      initField methods fieldName tag rt r =
        Except.error ("cannot find method: " ++ ("Read" ++ toUpperGo fieldName))) ∧
    (hwioGet tag "wcb" = "true" →
      (hwioGet tag "rcb" = "" ∨
        methods.contains (resolveCbName "Read" fieldName (hwioGet tag "rcb")) = true) →
      methods.contains ("Write" ++ toUpperGo fieldName) = false →
      initField methods fieldName tag rt r =
        Except.error ("cannot find method: " ++ ("Write" ++ toUpperGo fieldName))) ∧
    (∀ r', hwioGet tag "rcb" = "true" →
      initField methods fieldName tag rt r = Except.ok r' →
      r'.ReadCb = some ("Read" ++ toUpperGo fieldName)) ∧
    (∀ r', hwioGet tag "wcb" = "true" →
      initField methods fieldName tag rt r = Except.ok r' →
      r'.WriteCb = some ("Write" ++ toUpperGo fieldName)) := by
  obtain ⟨r1, h1⟩ : ∃ r1, rwmaskStep tag (nbitsOf rt) r = Except.ok r1 := by
    unfold rwmaskStep
    by_cases hs : hwioGet tag "rwmask" = ""
    · rw [if_neg (by simp [hs])]
      exact ⟨r, rfl⟩
    · obtain ⟨m, hm⟩ := Option.isSome_iff_exists.mp (hrw hs)
      rw [if_pos hs, hm]
      exact ⟨_, rfl⟩
  obtain ⟨r2, h2⟩ : ∃ r2, resetStep tag (nbitsOf rt) r1 = Except.ok r2 := by
    unfold resetStep
    by_cases hs : hwioGet tag "reset" = ""
    · rw [if_neg (by simp [hs])]
      exact ⟨r1, rfl⟩
    · obtain ⟨v, hv⟩ := Option.isSome_iff_exists.mp (hrs hs)
      rw [if_pos hs, hv]
      exact ⟨_, rfl⟩
  have hbody : initField methods fieldName tag rt r =
      bindE (rcbStep methods fieldName tag r2) fun r3 =>
        wcbStep methods fieldName tag r3 := by
    unfold initField
    simp only [h1, h2, bindE_ok]
  refine ⟨fun hrcb hmiss => ?_, fun hwcb hrcbok hmiss => ?_, fun r' hrcb hok => ?_,
    fun r' hwcb hok => ?_⟩
  · have h3 : rcbStep methods fieldName tag r2 =
        Except.error ("cannot find method: " ++ ("Read" ++ toUpperGo fieldName)) := by
      unfold rcbStep
      rw [hrcb]
      have hmiss2 : "Read" ++ toUpperGo fieldName ∉ methods := by simpa using hmiss
      simp [resolveCbName, hmiss2]
    rw [hbody, h3, bindE_error]
  · have h3 : ∃ r3, rcbStep methods fieldName tag r2 = Except.ok r3 := by
      unfold rcbStep
      rcases hrcbok with hempty | hctn
      · rw [if_neg (by simp [hempty])]
        exact ⟨r2, rfl⟩
      · by_cases hs : hwioGet tag "rcb" = ""
        · rw [if_neg (by simp [hs])]
          exact ⟨r2, rfl⟩
        · rw [if_pos hs, if_pos hctn]
          exact ⟨_, rfl⟩
    obtain ⟨r3, h3⟩ := h3
    have h4 : wcbStep methods fieldName tag r3 =
        Except.error ("cannot find method: " ++ ("Write" ++ toUpperGo fieldName)) := by
      unfold wcbStep
      rw [hwcb]
      have hmiss2 : "Write" ++ toUpperGo fieldName ∉ methods := by simpa using hmiss
      simp [resolveCbName, hmiss2]
    rw [hbody, h3, bindE_ok, h4]
  · rw [hbody] at hok
    cases h3 : rcbStep methods fieldName tag r2 with
    | error e => rw [h3, bindE_error] at hok; exact absurd hok (by simp)
    | ok r3 =>
      rw [h3, bindE_ok] at hok
      have hread3 : r3.ReadCb = some ("Read" ++ toUpperGo fieldName) := by
        unfold rcbStep at h3
        rw [hrcb] at h3
        simp [resolveCbName] at h3
        split at h3
        · cases h3; rfl
        · exact absurd h3 (by simp)
      obtain ⟨-, -, hread⟩ := wcbStep_ok hok
      rw [hread, hread3]
  · rw [hbody] at hok
    cases h3 : rcbStep methods fieldName tag r2 with
    | error e => rw [h3, bindE_error] at hok; exact absurd hok (by simp)
    | ok r3 =>
      rw [h3, bindE_ok] at hok
      unfold wcbStep at hok
      rw [hwcb] at hok
      simp [resolveCbName] at hok
      split at hok
      · cases hok; rfl
      · exact absurd hok (by simp)

/-- C8 witness at the divisor's `DivCnt` field: its bare `rcb` flag
resolves to `ReadDIVCNT`, which is missing on an instance with no
methods (error) and bound on the real instance (success). -/
theorem initregs_callback_resolution_witness :
    (hwioGet "offset=0x00,rwmask=0x3,wcb,rcb" "rcb" = "true") ∧
    ([] : List String).contains ("Read" ++ toUpperGo "DivCnt") = false ∧
    initField [] "DivCnt" "offset=0x00,rwmask=0x3,wcb,rcb" RegType.Reg16 {} =
      Except.error ("cannot find method: " ++ ("Read" ++ toUpperGo "DivCnt")) := by
  refine ⟨by decide, by decide, ?_⟩
  exact (initregs_callback_resolution [] "DivCnt" "offset=0x00,rwmask=0x3,wcb,rcb"
    RegType.Reg16 {} (fun _ => by decide) (fun h => absurd (by decide) h)).1
    (by decide) (by decide)

/-- `InitRegs` over a whole peripheral: fold `initField` over the tagged
fields (field name, tag, register type), stopping at the first error. -/
def InitRegs (methods : List String) :
    List (String × String × RegType) → Except String (List RegState)
  | [] => Except.ok []
  | (fieldName, tag, rt) :: rest =>
    match initField methods fieldName tag rt {} with
    | Except.error e => Except.error e
    | Except.ok r =>
      match InitRegs methods rest with
      | Except.error e => Except.error e
      | Except.ok rs => Except.ok (r :: rs)

/-! ## ARM CPU core (src/unnamed/part_001, package arm)

The parts of the CPU state that the exception, HLE-hook and line logic
touch.  Register values are `uint32`, modelled as `Nat` with explicit
wrap-around; the clock is Go `int64`, modelled as `Int` (none of the
modelled paths relies on clock wrap-around).  The SWI HLE hook table
and the bus read are passed to `Exception` as parameters: in the source
they are a `[256]func(*Cpu) int64` field (hooks receive the CPU pointer
and may mutate it, so they are modelled as state transformers paired
with the returned cycle count) and the external bus interface. -/

def LineFiq : Nat := 1

def LineIrq : Nat := 2

def LineHalt : Nat := 4

/-- Modelled from the spec: the 5-bit ARM mode codes.  The `CpuMode*`
constants live in a source file that is not part of src/; `NewCpu`
seeds `_mode = 0x13` commented "mode supervisor", matching the
standard ARM encoding used here. -/
def CpuModeUser : Nat := 0x10

/-- FIQ mode code (see `CpuModeUser`). -/
def CpuModeFiq : Nat := 0x11

/-- IRQ mode code (see `CpuModeUser`). -/
def CpuModeIrq : Nat := 0x12

/-- Supervisor mode code (see `CpuModeUser`). -/
def CpuModeSupervisor : Nat := 0x13

/-- Abort mode code (see `CpuModeUser`). -/
def CpuModeAbort : Nat := 0x17

/-- Undefined mode code (see `CpuModeUser`). -/
def CpuModeUndefined : Nat := 0x1b

/-- System mode code (see `CpuModeUser`). -/
def CpuModeSystem : Nat := 0x1f

/-- Modelled from the spec: the status register (`regCpsr`, in a source
file that is not part of src/) holds the condition flags, the
Thumb/ARM width flag `t`, the interrupt-mask flags `i` and `f`, and
the 5-bit mode code. -/
structure RegCpsr where
  n : Bool := false
  z : Bool := false
  c : Bool := false
  v : Bool := false
  i : Bool := false
  f : Bool := false
  t : Bool := false
  mode : Nat := 0
deriving DecidableEq, Repr

/-- Modelled from the spec: `regCpsr.Uint32` packs the status register
into its architectural 32-bit image (N/Z/C/V in bits 31–28, I/F/T in
bits 7–5, mode in bits 4–0). -/
def RegCpsr.Uint32 (r : RegCpsr) : Nat :=
  (cond r.n (2^31) 0) + (cond r.z (2^30) 0) + (cond r.c (2^29) 0) + (cond r.v (2^28) 0) +
  (cond r.i (2^7) 0) + (cond r.f (2^6) 0) + (cond r.t (2^5) 0) + r.mode % 2^5

/-- The CPU state touched by the modelled operations (`Cpu` in the
source; the jit/debugger/coprocessor plumbing is out of scope, and
`cp15Vector` stands for `cp15 != nil` together with the value its
`ExceptionVector()` returns). -/
structure Cpu where
  Regs : Fin 16 → Nat
  Cpsr : RegCpsr
  Clock : Int
  UsrBank : Nat × Nat
  FiqBank : Nat × Nat
  SvcBank : Nat × Nat
  AbtBank : Nat × Nat
  IrqBank : Nat × Nat
  UndBank : Nat × Nat
  SpsrBank : Fin 5 → Nat
  UsrBank2 : Fin 5 → Nat
  FiqBank2 : Fin 5 → Nat
  pc : Nat
  lines : Nat
  tightExit : Bool
  cp15Vector : Option Nat

/-- `ExceptionReset` (source value 0). -/
def ExceptionReset : Fin 8 := 0

/-- `ExceptionUndefined` (source value 1). -/
def ExceptionUndefined : Fin 8 := 1

/-- `ExceptionSwi` (source value 2). -/
def ExceptionSwi : Fin 8 := 2

/-- `ExceptionIrq` (source value 6). -/
def ExceptionIrq : Fin 8 := 6

/-- `ExceptionFiq` (source value 7). -/
def ExceptionFiq : Fin 8 := 7

/-- `excMode`: CPU mode to enter when the exception is raised. -/
def excMode (e : Fin 8) : Nat :=
  match e.val with
  | 0 => CpuModeSupervisor
  | 1 => CpuModeUndefined
  | 2 => CpuModeSupervisor
  | 3 => CpuModeAbort
  | 4 => CpuModeAbort
  | 5 => CpuModeSupervisor
  | 6 => CpuModeIrq
  | _ => CpuModeFiq

/-- `excPcOffsetArm`: return-address offset table for ARM-width mode. -/
def excPcOffsetArm (e : Fin 8) : Nat :=
  match e.val with
  | 0 => 0
  | 1 => 4
  | 2 => 0
  | 3 => 4
  | 4 => 8
  | 5 => 4
  | 6 => 4
  | _ => 4

/-- `excPcOffsetThumb`: return-address offset table for Thumb-width mode. -/
def excPcOffsetThumb (e : Fin 8) : Nat :=
  match e.val with
  | 0 => 0
  | 1 => 2
  | 2 => 0
  | 3 => 4
  | 4 => 6
  | 5 => 2
  | 6 => 4
  | _ => 4

/-- `RegSpsr`: index of the active mode's saved-status register in
`SpsrBank` (FIQ 0, Supervisor 1, Abort 2, IRQ 3, Undefined 4); `none`
models the breakpoint trap for User/System or invalid modes. -/
def spsrIndex (mode : Nat) : Option (Fin 5) :=
  if mode = CpuModeFiq then some 0
  else if mode = CpuModeSupervisor then some 1
  else if mode = CpuModeAbort then some 2
  else if mode = CpuModeIrq then some 3
  else if mode = CpuModeUndefined then some 4
  else none

/-- Which two-register bank (R13/R14 shadow) belongs to a mode;
User and System share the user bank. -/
def bankGet (cpu : Cpu) (mode : Nat) : Nat × Nat :=
  if mode = CpuModeFiq then cpu.FiqBank
  else if mode = CpuModeSupervisor then cpu.SvcBank
  else if mode = CpuModeAbort then cpu.AbtBank
  else if mode = CpuModeIrq then cpu.IrqBank
  else if mode = CpuModeUndefined then cpu.UndBank
  else cpu.UsrBank

/-- Store a two-register bank back into the mode's slot. -/
def bankSet (cpu : Cpu) (mode : Nat) (b : Nat × Nat) : Cpu :=
  if mode = CpuModeFiq then { cpu with FiqBank := b }
  else if mode = CpuModeSupervisor then { cpu with SvcBank := b }
  else if mode = CpuModeAbort then { cpu with AbtBank := b }
  else if mode = CpuModeIrq then { cpu with IrqBank := b }
  else if mode = CpuModeUndefined then { cpu with UndBank := b }
  else { cpu with UsrBank := b }

/-- Modelled from the spec: `regCpsr.SetMode` (in a source file that is
not part of src/) switches the 5-bit mode code and atomically swaps the
banked register subset: live R13/R14 are saved to the old mode's bank
and loaded from the new mode's; entering or leaving FIQ additionally
swaps R8–R12 with the `FiqBank2`/`UsrBank2` shadows.  General registers
0–7 are never touched. -/
def fiqSwap (cpu : Cpu) (old newmode : Nat) : Cpu :=
  if old = CpuModeFiq ∧ newmode ≠ CpuModeFiq then
    { cpu with
      FiqBank2 := fun j => cpu.Regs ⟨8 + j.val, by omega⟩
      Regs := fun k =>
        if h : 8 ≤ k.val ∧ k.val ≤ 12 then cpu.UsrBank2 ⟨k.val - 8, by omega⟩
        else cpu.Regs k }
  else if newmode = CpuModeFiq ∧ old ≠ CpuModeFiq then
    { cpu with
      UsrBank2 := fun j => cpu.Regs ⟨8 + j.val, by omega⟩
      Regs := fun k =>
        if h : 8 ≤ k.val ∧ k.val ≤ 12 then cpu.FiqBank2 ⟨k.val - 8, by omega⟩
        else cpu.Regs k }
  else cpu

/-- See `fiqSwap` and the docstring above: save live R13/R14 into the
old mode's bank, run the R8–R12 FIQ swap, load R13/R14 from the new
mode's bank, and write the mode code. -/
def cpuSetMode (cpu : Cpu) (newmode : Nat) : Cpu :=
  let fsw := fiqSwap (bankSet cpu cpu.Cpsr.mode (cpu.Regs 13, cpu.Regs 14))
    cpu.Cpsr.mode newmode
  { fsw with
    Regs := fun k =>
      if k.val = 13 then (bankGet fsw newmode).1
      else if k.val = 14 then (bankGet fsw newmode).2
      else fsw.Regs k
    Cpsr := { fsw.Cpsr with mode := newmode } }

/-- CPSR adjustment block of `Exception`: clear the Thumb flag, switch
to the exception's target mode (banking registers), set the I flag,
and additionally the F flag for Reset and FIQ. -/
def excAdjustCpsr (cpu : Cpu) (exc : Fin 8) : Cpu :=
  let cpu1 := { cpu with Cpsr := { cpu.Cpsr with t := false } }
  let cpu2 := cpuSetMode cpu1 (excMode exc)
  let cpu3 := { cpu2 with Cpsr := { cpu2.Cpsr with i := true } }
  if exc = ExceptionReset ∨ exc = ExceptionFiq then
    { cpu3 with Cpsr := { cpu3.Cpsr with f := true } }
  else cpu3

/-- Register/vector block of `Exception`, run after the mode change:
save the old CPSR into the (now current) mode's saved-status register,
the return address into R14, point R15 at the exception vector
(coprocessor base, or 0, plus `exc * 4`), branch there (modelled from
the spec: `cpu.branch`, in a source file that is not part of src/, sets
the program counter), and advance the clock by 3. -/
def excSaveRegs (cpu : Cpu) (oldcpsr pc : Nat) (exc : Fin 8) : Cpu :=
  let cpu5 :=
    match spsrIndex cpu.Cpsr.mode with
    | some idx => { cpu with SpsrBank := Function.update cpu.SpsrBank idx oldcpsr }
    | none => cpu
  let cpu6 := { cpu5 with Regs := Function.update cpu5.Regs 14 pc }
  let vec := ((match cpu6.cp15Vector with | some v => v | none => 0) + exc.val * 4) % 2^32
  { cpu6 with
    Regs := Function.update cpu6.Regs 15 vec
    pc := vec
    Clock := cpu6.Clock + 3 }

/-- The real (non-HLE) exception dispatch. -/
def exceptionReal (cpu : Cpu) (exc : Fin 8) (pc : Nat) : Cpu :=
  excSaveRegs (excAdjustCpsr cpu exc) cpu.Cpsr.Uint32 pc exc

/-- `(*Cpu).Exception`: compute the width-dependent return address; for
a SWI with an installed HLE hook (table indexed by the low 8 bits of
the halfword just before the return address), run the hook and advance
the clock by its cycle count plus 3, touching nothing else; otherwise
dispatch the real exception. -/
def Exception (swiHle : Nat → Option (Cpu → Cpu × Int)) (read16 : Nat → Nat)
    (cpu : Cpu) (exc : Fin 8) : Cpu :=
  let pc := (cpu.pc + (if cpu.Cpsr.t then excPcOffsetThumb exc else excPcOffsetArm exc)) % 2^32
  if exc = ExceptionSwi then
    match swiHle (read16 ((pc + 2^32 - 2) % 2^32) &&& 0xFF) with
    | some hle =>
      let res := hle cpu
      { res.1 with Clock := res.1.Clock + res.2 + 3 }
    | none => exceptionReal cpu exc pc
  else exceptionReal cpu exc pc

/-- Go `a &^ b` on the 64-bit `Line` bitset (exact for `a < 2^64`). -/
def andNot64 (a b : Nat) : Nat := a &&& ((2^64 - 1) ^^^ (b % 2^64))

/-- `(*Cpu).SetLine`: asserting a line differing from the current set
marks the tight-loop exit flag, ORs the bit in, and for IRQ/FIQ clears
the Halt line; deasserting just clears the bit. -/
def SetLine (cpu : Cpu) (line : Nat) (val : Bool) : Cpu :=
  if val then
    let cpu1 := if Nat.xor cpu.lines line ≠ 0 then { cpu with tightExit := true } else cpu
    let cpu2 := { cpu1 with lines := cpu1.lines ||| line }
    if line &&& (LineFiq ||| LineIrq) ≠ 0 then
      { cpu2 with lines := andNot64 cpu2.lines LineHalt }
    else cpu2
  else
    { cpu with lines := andNot64 cpu.lines line }

/-- A concrete CPU state used by the witnesses. -/
def cpuZero : Cpu :=
  { Regs := fun _ => 0
    Cpsr := {}
    Clock := 0
    UsrBank := (0, 0)
    FiqBank := (0, 0)
    SvcBank := (0, 0)
    AbtBank := (0, 0)
    IrqBank := (0, 0)
    UndBank := (0, 0)
    SpsrBank := fun _ => 0
    UsrBank2 := fun _ => 0
    FiqBank2 := fun _ => 0
    pc := 0x100
    lines := 0
    tightExit := false
    cp15Vector := none }

lemma bankSet_Cpsr (cpu : Cpu) (mode : Nat) (b : Nat × Nat) :
    (bankSet cpu mode b).Cpsr = cpu.Cpsr := by
  unfold bankSet
  split_ifs <;> rfl

lemma bankSet_SpsrBank (cpu : Cpu) (mode : Nat) (b : Nat × Nat) :
    (bankSet cpu mode b).SpsrBank = cpu.SpsrBank := by
  unfold bankSet
  split_ifs <;> rfl

lemma fiqSwap_Cpsr (cpu : Cpu) (o n : Nat) : (fiqSwap cpu o n).Cpsr = cpu.Cpsr := by
  unfold fiqSwap
  split_ifs <;> rfl

lemma fiqSwap_SpsrBank (cpu : Cpu) (o n : Nat) :
    (fiqSwap cpu o n).SpsrBank = cpu.SpsrBank := by
  unfold fiqSwap
  split_ifs <;> rfl

lemma cpuSetMode_Cpsr (cpu : Cpu) (m : Nat) :
    (cpuSetMode cpu m).Cpsr = { cpu.Cpsr with mode := m } := by
  simp only [cpuSetMode, fiqSwap_Cpsr, bankSet_Cpsr]

lemma cpuSetMode_SpsrBank (cpu : Cpu) (m : Nat) :
    (cpuSetMode cpu m).SpsrBank = cpu.SpsrBank := by
  simp only [cpuSetMode, fiqSwap_SpsrBank, bankSet_SpsrBank]

lemma excAdjustCpsr_Cpsr (cpu : Cpu) (exc : Fin 8) :
    (excAdjustCpsr cpu exc).Cpsr =
      { cpu.Cpsr with
        t := false
        i := true
        mode := excMode exc
        f := if exc = ExceptionReset ∨ exc = ExceptionFiq then true else cpu.Cpsr.f } := by
  simp only [excAdjustCpsr]
  split_ifs with h <;> rw [cpuSetMode_Cpsr]

lemma excAdjustCpsr_SpsrBank (cpu : Cpu) (exc : Fin 8) :
    (excAdjustCpsr cpu exc).SpsrBank = cpu.SpsrBank := by
  simp only [excAdjustCpsr]
  split_ifs <;> exact cpuSetMode_SpsrBank _ _

lemma excSaveRegs_eq (cpu : Cpu) (oldcpsr pc : Nat) (exc : Fin 8) (idx : Fin 5)
    (hidx : spsrIndex cpu.Cpsr.mode = some idx) :
    excSaveRegs cpu oldcpsr pc exc =
      { cpu with
        SpsrBank := Function.update cpu.SpsrBank idx oldcpsr
        Regs := Function.update (Function.update cpu.Regs 14 pc) 15
          (((match cpu.cp15Vector with | some v => v | none => 0) + exc.val * 4) % 2^32)
        pc := ((match cpu.cp15Vector with | some v => v | none => 0) + exc.val * 4) % 2^32
        Clock := cpu.Clock + 3 } := by
  simp only [excSaveRegs, hidx]

/-- C3: dispatching `Exception(Irq)` outside the HLE path: the offset
tables give `pc+4` for IRQ in both widths, the mode becomes IRQ, the
link register R14 receives `pc+4`, and the pre-exception CPSR image
lands in the IRQ slot of the saved-status bank (index 3), every other
slot being untouched — the write happens after the mode switch. -/
theorem exception_irq_banks (swiHle : Nat → Option (Cpu → Cpu × Int)) (read16 : Nat → Nat)
    (cpu : Cpu) (hpc : cpu.pc + 4 < 2^32) :
    excPcOffsetArm ExceptionIrq = 4 ∧ excPcOffsetThumb ExceptionIrq = 4 ∧
    (Exception swiHle read16 cpu ExceptionIrq).Cpsr.mode = CpuModeIrq ∧
    (Exception swiHle read16 cpu ExceptionIrq).Regs 14 = cpu.pc + 4 ∧
    (Exception swiHle read16 cpu ExceptionIrq).SpsrBank 3 = cpu.Cpsr.Uint32 ∧
    (∀ j : Fin 5, j ≠ 3 →
      (Exception swiHle read16 cpu ExceptionIrq).SpsrBank j = cpu.SpsrBank j) := by
  have hmode : (excAdjustCpsr cpu ExceptionIrq).Cpsr.mode = CpuModeIrq := by
    rw [excAdjustCpsr_Cpsr]
    show excMode ExceptionIrq = CpuModeIrq
    decide
  have hidx : spsrIndex (excAdjustCpsr cpu ExceptionIrq).Cpsr.mode = some 3 := by
    rw [hmode]; decide
  have hE : Exception swiHle read16 cpu ExceptionIrq =
      excSaveRegs (excAdjustCpsr cpu ExceptionIrq) cpu.Cpsr.Uint32 (cpu.pc + 4)
        ExceptionIrq := by
    simp only [Exception]
    rw [if_neg (by decide : ¬(ExceptionIrq = ExceptionSwi))]
    have hoff : (if cpu.Cpsr.t then excPcOffsetThumb ExceptionIrq
        else excPcOffsetArm ExceptionIrq) = 4 := by
      cases cpu.Cpsr.t <;> rfl
    rw [hoff, Nat.mod_eq_of_lt hpc]
    rfl
  rw [hE, excSaveRegs_eq _ _ _ _ 3 hidx]
  refine ⟨rfl, rfl, hmode, ?_, ?_, ?_⟩
  · simp [Function.update_apply]
  · simp [Function.update_apply]
  · intro j hj
    simp [Function.update_apply, hj, excAdjustCpsr_SpsrBank]

/-- C3 witness at a concrete state (ARM width, pc `0x100`). -/
theorem exception_irq_banks_witness :
    (cpuZero.pc + 4 < 2^32) ∧
    (Exception (fun _ => none) (fun _ => 0) cpuZero ExceptionIrq).Cpsr.mode = CpuModeIrq ∧
    (Exception (fun _ => none) (fun _ => 0) cpuZero ExceptionIrq).Regs 14 = 0x104 := by
  have h := exception_irq_banks (fun _ => none) (fun _ => 0) cpuZero (by decide)
  exact ⟨by decide, h.2.2.1, h.2.2.2.1⟩

/-- C4: dispatching `Exception(Swi)` when the 8-bit immediate (read from
the halfword before the return address) has a hook installed: the hook
runs on the CPU state and the only further change is the clock
advancing by the hook's cycle count plus 3 — mode, CPSR, banks, link
register and program counter are exactly as the hook left them (no real
mode switch or vector jump). -/
theorem exception_swi_hle (swiHle : Nat → Option (Cpu → Cpu × Int)) (read16 : Nat → Nat)
    (cpu cpu2 : Cpu) (h : Cpu → Cpu × Int) (d : Int)
    (hpc : cpu.pc < 2^32)
    (hhle : swiHle (read16 ((cpu.pc + 2^32 - 2) % 2^32) &&& 0xFF) = some h)
    (hrun : h cpu = (cpu2, d)) :
    Exception swiHle read16 cpu ExceptionSwi = { cpu2 with Clock := cpu2.Clock + d + 3 } := by
  simp only [Exception]
  rw [if_pos trivial]
  have hoff : (if cpu.Cpsr.t then excPcOffsetThumb ExceptionSwi
      else excPcOffsetArm ExceptionSwi) = 0 := by
    cases cpu.Cpsr.t <;> rfl
  rw [hoff, Nat.add_zero, Nat.mod_eq_of_lt hpc, hhle]
  show { (h cpu).1 with Clock := (h cpu).1.Clock + (h cpu).2 + 3 } =
    { cpu2 with Clock := cpu2.Clock + d + 3 }
  rw [hrun]

/-- C4 witness: an identity hook costing 7 cycles installed at SWI 5. -/
theorem exception_swi_hle_witness :
    (Exception (fun n => if n = 5 then some (fun c => (c, 7)) else none) (fun _ => 5)
        cpuZero ExceptionSwi).Clock = cpuZero.Clock + 7 + 3 ∧
    (Exception (fun n => if n = 5 then some (fun c => (c, 7)) else none) (fun _ => 5)
        cpuZero ExceptionSwi).Cpsr = cpuZero.Cpsr ∧
    (Exception (fun n => if n = 5 then some (fun c => (c, 7)) else none) (fun _ => 5)
        cpuZero ExceptionSwi).pc = cpuZero.pc := by
  have h := exception_swi_hle (fun n => if n = 5 then some (fun c => (c, 7)) else none)
    (fun _ => 5) cpuZero cpuZero (fun c => (c, 7)) 7 (by decide) rfl rfl
  rw [h]
  exact ⟨rfl, rfl, rfl⟩

lemma andNot64_testBit (a b k : Nat) (hk : k < 64) :
    Nat.testBit (andNot64 a b) k = (Nat.testBit a k && !Nat.testBit b k) := by
  unfold andNot64
  rw [Nat.testBit_and, Nat.testBit_xor, Nat.testBit_two_pow_sub_one, Nat.testBit_mod_two_pow]
  simp [hk]

lemma setline_true_lines (cpu : Cpu) (line : Nat) :
    (SetLine cpu line true).lines =
      if line &&& (LineFiq ||| LineIrq) ≠ 0 then andNot64 (cpu.lines ||| line) LineHalt
      else cpu.lines ||| line := by
  simp only [SetLine]
  split_ifs <;> rfl

/-- C5: asserting the IRQ or FIQ line always leaves the Halt line
deasserted — for every prior line state and every CPSR, the I/F mask
flags not being consulted at all; deasserting any line only clears that
line's bits (for every machine bit position) and changes nothing else
(in particular neither the tight-exit flag nor, beyond the given line,
the Halt bit). -/
theorem setline_wake_halt (cpu : Cpu) (line : Nat) :
    ((SetLine cpu LineIrq true).lines &&& LineHalt = 0) ∧
    ((SetLine cpu LineFiq true).lines &&& LineHalt = 0) ∧
    (SetLine cpu line false = { cpu with lines := andNot64 cpu.lines line }) ∧
    (∀ k, k < 64 → Nat.testBit (SetLine cpu line false).lines k =
      (Nat.testBit cpu.lines k && !Nat.testBit line k)) := by
  refine ⟨?_, ?_, rfl, ?_⟩
  · rw [setline_true_lines, if_pos (by decide)]
    unfold andNot64
    rw [Nat.and_assoc]
    rw [show ((2^64 - 1) ^^^ (LineHalt % 2^64)) &&& LineHalt = 0 by decide, Nat.and_zero]
  · rw [setline_true_lines, if_pos (by decide)]
    unfold andNot64
    rw [Nat.and_assoc]
    rw [show ((2^64 - 1) ^^^ (LineHalt % 2^64)) &&& LineHalt = 0 by decide, Nat.and_zero]
  · intro k hk
    show Nat.testBit (andNot64 cpu.lines line) k = _
    exact andNot64_testBit _ _ _ hk

/-! ## Touchscreen controller (src/unnamed/part_000, package main)

Only the per-conversion sample computation (the `switch adchan` block of
`transfer`) is embedded; the rendezvous byte protocol around it is
driven by Go channels.  The emulated RAM holding the calibration data
is passed as a byte-read function. -/

/-- A byte read from the emulated RAM image. -/
def ramByte (ram : Nat → Nat) (addr : Nat) : Nat := ram addr % 2^8

/-- `binary.LittleEndian.Uint16` over the emulated RAM image. -/
def ramU16 (ram : Nat → Nat) (addr : Nat) : Nat :=
  ramByte ram addr ||| (ramByte ram (addr + 1) <<< 8)

/-- Go `uint16(x)` on a signed value: the low 16 bits of its
two's-complement representation. -/
def u16ofInt (x : Int) : Nat := (Int.emod x (2^16)).toNat

/-- The touchscreen calibration interpolation
`uint16((pen - int(scr1) + 1) * int(adc2 - adc1) / int(scr2 - scr1) + int(adc1))`:
the ADC difference wraps as `uint16`, the screen difference as a byte,
and the division is Go's truncating `int` division.  (When the screen
calibration span is zero the Go code divides by zero and panics; the
`Int.tdiv` convention returns 0 there — the spec flags this case as
undefined/open.) -/
def tscInterp (pen : Int) (adc1 adc2 scr1 scr2 : Nat) : Nat :=
  u16ofInt (Int.tdiv ((pen - (scr1 : Int) + 1) * (((adc2 + 2^16 - adc1) % 2^16 : Nat) : Int))
    (((scr2 + 2^8 - scr1) % 2^8 : Nat) : Int) + (adc1 : Int))

/-- The `switch adchan` sample computation of `(*HwTouchScreen).transfer`:
channel select is bits 6–4 of the command byte; channel 0 returns the
mid-scale constant, channel 1 (Y) and channel 5 (X) interpolate from
the calibration values at the fixed RAM offsets when the pen is down
and return all-ones respectively zero when it is up; other channels
leave the output at its zero value (warning logged). -/
def tscSample (ram : Nat → Nat) (penDown : Bool) (penX penY : Int) (cmd : Nat) : Nat :=
  let adchan := (cmd >>> 4) &&& 7
  if adchan = 0 then 0x800
  else if adchan = 1 then
    if penDown then
      tscInterp penY (ramU16 ram (0x3FFC80 + 0x5A)) (ramU16 ram (0x3FFC80 + 0x60))
        (ramByte ram (0x3FFC80 + 0x5D)) (ramByte ram (0x3FFC80 + 0x63))
    else 0xFFF
  else if adchan = 5 then
    if penDown then
      tscInterp penX (ramU16 ram (0x3FFC80 + 0x58)) (ramU16 ram (0x3FFC80 + 0x5E))
        (ramByte ram (0x3FFC80 + 0x5C)) (ramByte ram (0x3FFC80 + 0x62))
    else 0x0
  else 0

/-- C9: with the pen up, a conversion whose command byte selects
channel 1 (Y) computes the all-ones 12-bit sample `0xFFF`, and one
selecting channel 5 (X) computes 0, whatever the RAM contents and pen
coordinates. -/
theorem tsc_penup_samples (ram : Nat → Nat) (penX penY : Int) (cmd : Nat) :
    (((cmd >>> 4) &&& 7 = 1) → tscSample ram false penX penY cmd = 0xFFF) ∧
    (((cmd >>> 4) &&& 7 = 5) → tscSample ram false penX penY cmd = 0) := by
  constructor <;> intro h <;> simp [tscSample, h]

/-- C9 witness: command bytes `0x90` (start bit, channel 1) and `0xD0`
(start bit, channel 5) with the pen up. -/
theorem tsc_penup_samples_witness :
    ((0x90 >>> 4) &&& 7 = 1) ∧ tscSample (fun _ => 0) false 0 0 0x90 = 0xFFF ∧
    ((0xD0 >>> 4) &&& 7 = 5) ∧ tscSample (fun _ => 0) false 0 0 0xD0 = 0 :=
  ⟨by decide, (tsc_penup_samples (fun _ => 0) 0 0 0x90).1 (by decide),
   by decide, (tsc_penup_samples (fun _ => 0) 0 0 0xD0).2 (by decide)⟩

/-- C5 witness: asserting IRQ while Halt is asserted and the CPSR I
flag is set clears Halt; deasserting IRQ afterwards only clears IRQ. -/
theorem setline_wake_halt_witness :
    ((SetLine { cpuZero with lines := LineHalt, Cpsr := { i := true } } LineIrq true).lines
        &&& LineHalt = 0) ∧
    (SetLine cpuZero LineIrq false =
      { cpuZero with lines := andNot64 cpuZero.lines LineIrq }) := by
  exact ⟨(setline_wake_halt { cpuZero with lines := LineHalt, Cpsr := { i := true } }
    LineIrq).1, (setline_wake_halt cpuZero LineIrq).2.2.1⟩

end Ndsemu
